import Mathlib

/-!
# DataMedic: verification of the detection-and-remediation engine

Shallow embedding of the tabular data-quality engine of the DataMedic
repository.  A pandas `DataFrame` is modelled as an ordered list of named
columns, each an ordered list of cells; a cell is a rational number, a
string, or the absent/null sentinel (pandas `NaN`/`None`).  Rationals stand
for the source's floating-point numbers; all quantile and mean computations
of the source are affine in the data, so they are exact over `ℚ`.

The embedded operations are translated from:
* `src/cleanops/data_preprocessor.py` — `DataInspector` (`detect_missing`,
  `detect_duplicates`, `detect_outliers`, `inspect`), `DataCleaner`
  (`diagnose`, `fix_missing`, `fix_duplicates(column)`, `fix_outliers`),
  `DataOrganizer` (`sort_rows`);
* `src/data_preprocessor.py` / `src/data_doctor.py` — the key-less
  whole-row `fix_duplicates`;
* `src/data_output.py` — `ReportGenerator.report` and `health_score`.

Mutating methods are modelled by explicit state passing: a method that can
raise returns the (possibly partially) mutated table, the list of fix-log
entries appended during the call, and `Option String` holding the error
message of a raised `ValueError`/`KeyError` (`none` = normal return).
String log messages reproduce the source's f-strings with the decorative
single-quote punctuation around names elided.
-/

set_option allowUnsafeReducibility true

/- The library marks the rational-number arithmetic irreducible, which only
hides it from unification; restoring the default visibility lets concrete
tables be evaluated by `decide`.  Kernel checking is unaffected. -/
attribute [semireducible] Rat.add Rat.mul Rat.sub Rat.div Rat.inv Rat.ofScientific

/-- A single cell of a table: a numeric value, a text value, or the
absent/null sentinel (`NaN` in pandas). -/
inductive Cell where
  | null : Cell
  | num (q : ℚ) : Cell
  | str (s : String) : Cell
deriving DecidableEq, Repr

/-- A named column: `name` and the ordered cells. -/
structure Column where
  name : String
  cells : List Cell
deriving DecidableEq, Repr

/-- A table is an ordered list of named columns (column-major, as a pandas
`DataFrame` is). -/
abbrev Table := List Column

/-- A row, read across the columns in column order. -/
abbrev Row := List Cell

/-- Number of absent cells in a column (`self._data[col].isnull().sum()`). -/
def Column.missingCount (c : Column) : Nat :=
  c.cells.countP (fun x => decide (x = Cell.null))

/-- The present numeric values of a column, in order (pandas drops `NaN`
from all statistics used here). -/
def Column.presentValues (c : Column) : List ℚ :=
  c.cells.filterMap (fun x => match x with | Cell.num q => some q | _ => none)

/-- Whether the column has a numeric dtype, i.e. is selected by
`select_dtypes(include="number")`: every cell is numeric or null (an
ingested column holding any text gets the non-numeric `object` dtype). -/
def Column.isNumeric (c : Column) : Bool :=
  c.cells.all (fun x => match x with | Cell.str _ => false | _ => true)

/-- The column names, in order. -/
def Table.names (t : Table) : List String := t.map (·.name)

/-- Row count (`self._data.shape[0]`); every column of a well-formed table
has this many cells. -/
def Table.nrows (t : Table) : Nat :=
  match t with
  | [] => 0
  | c :: _ => c.cells.length

/-- The `i`-th row, read across the columns. -/
def Table.row (t : Table) (i : Nat) : Row :=
  t.map (fun c => c.cells.getD i Cell.null)

/-- All rows of the table, in order. -/
def Table.rows (t : Table) : List Row :=
  (List.range t.nrows).map t.row

/-- Rebuild a column-major table from a list of rows and the column names. -/
def Table.ofRows (names : List String) (rs : List Row) : Table :=
  names.enum.map (fun p => ⟨p.2, rs.map (fun r => r.getD p.1 Cell.null)⟩)

/-- The row-count invariant of the data model: every column has `nrows`
cells. -/
def Table.WellFormed (t : Table) : Prop :=
  ∀ c ∈ t, c.cells.length = t.nrows

instance (t : Table) : Decidable t.WellFormed := by
  unfold Table.WellFormed; infer_instance

/-- Ascending sort of rationals (used for order statistics). -/
def ratSort (xs : List ℚ) : List ℚ :=
  xs.insertionSort (· ≤ ·)

/-- Linear-interpolation quantile of a nonempty ascending list, exactly as
`Series.quantile` computes it (numpy `linear` interpolation): with
`h = q*(n-1)`, the result is `x⌊h⌋ + (h-⌊h⌋)·(x⌊h⌋₊₁ - x⌊h⌋)`. -/
def quantileSorted (xs : List ℚ) (q : ℚ) : ℚ :=
  let n := xs.length
  let h : ℚ := q * ((n : ℚ) - 1)
  let i : Nat := h.floor.toNat
  let f : ℚ := h - (i : ℚ)
  let x0 := xs.getD i 0
  let x1 := xs.getD (i + 1) x0
  x0 + f * (x1 - x0)

/-- `self._data[col].quantile(q)`: `none` models the `NaN` that pandas
returns when the column has no present value. -/
def Column.quantile (c : Column) (q : ℚ) : Option ℚ :=
  match ratSort c.presentValues with
  | [] => none
  | x :: xs => some (quantileSorted (x :: xs) q)

/-- The IQR clipping/outlier bounds `(Q1 - 1.5*IQR, Q3 + 1.5*IQR)` with
`IQR = Q3 - Q1`, recomputed from the column exactly as both
`detect_outliers` and `fix_outliers` do; `none` models the `NaN` bounds of
an all-null column. -/
def Column.iqrBounds (c : Column) : Option (ℚ × ℚ) :=
  match c.quantile (1/4), c.quantile (3/4) with
  | some q1, some q3 => some (q1 - 3/2 * (q3 - q1), q3 + 3/2 * (q3 - q1))
  | _, _ => none

/-- Per-column IQR outlier count:
`((col < lower) | (col > upper)).sum()` — null cells compare false, so only
present values strictly outside the bounds are counted; an all-null column
(NaN bounds) counts zero. -/
def Column.outlierCount (c : Column) : Nat :=
  match c.iqrBounds with
  | none => 0
  | some (lo, hi) => c.presentValues.countP (fun v => decide (v < lo) || decide (hi < v))

/-- `DataInspector.detect_missing`: per-column null counts, in column
order. -/
def detectMissing (t : Table) : List (String × Nat) :=
  t.map (fun c => (c.name, c.missingCount))

/-- One step of pandas `duplicated(keep="first")` accounting: a row is a
duplicate when its key (the projection `f`) was seen on an earlier row.
`seen` accumulates the keys of all rows already scanned. -/
def dupCountAux {α : Type} [DecidableEq α] (f : Row → α) (seen : List α) : List Row → Nat
  | [] => 0
  | r :: rs => (if f r ∈ seen then 1 else 0) + dupCountAux f (f r :: seen) rs

/-- `DataInspector.detect_duplicates`: `self._data.duplicated().sum()`,
whole-row equality (pandas treats two `NaN`s in the same column as equal
for this purpose, as `Cell.null = Cell.null` does here). -/
def detectDuplicates (t : Table) : Nat :=
  dupCountAux id [] t.rows

/-- `DataInspector.detect_outliers`: the IQR outlier count for every
numeric column, in column order. -/
def detectOutliers (t : Table) : List (String × Nat) :=
  (t.filter (fun c => c.isNumeric)).map (fun c => (c.name, c.outlierCount))

/-- Total order on cells used as the sort key order: numeric cells by
value, text cells lexicographically, and the null sentinel strictly after
everything present (pandas `sort_values` default `na_position="last"`).
An ingested column is homogeneous, so the arbitrary num-before-str rank is
never exercised inside one column. -/
def cellLE : Cell → Cell → Bool
  | Cell.num a, Cell.num b => decide (a ≤ b)
  | Cell.num _, Cell.str _ => true
  | Cell.num _, Cell.null => true
  | Cell.str _, Cell.num _ => false
  | Cell.str a, Cell.str b => decide (a ≤ b)
  | Cell.str _, Cell.null => true
  | Cell.null, Cell.null => true
  | Cell.null, Cell.num _ => false
  | Cell.null, Cell.str _ => false

/-- Ascending sort of cells (used for the pandas `mode()` tie-break, which
returns the candidates sorted and takes the first). -/
def sortCells (cs : List Cell) : List Cell :=
  cs.insertionSort (fun a b => cellLE a b = true)

/-- Occurrences of `x` in `cs`. -/
def countIn (cs : List Cell) (x : Cell) : Nat :=
  cs.countP (fun y => decide (y = x))

/-- `self._data[col].mode()` followed by `[0]`: the most frequent present
cell, ties resolved to the least candidate (pandas sorts the modes); `none`
models the empty mode of an all-null column. -/
def modeCell (cs : List Cell) : Option Cell :=
  let present := cs.filter (fun x => !decide (x = Cell.null))
  match sortCells present with
  | [] => none
  | y :: ys =>
    some ((y :: ys).foldl
      (fun best x => if countIn present best < countIn present x then x else best) y)

/-- `Series.fillna v`: replace every null cell by `v`. -/
def fillCells (cs : List Cell) (v : Cell) : List Cell :=
  cs.map (fun x => if x = Cell.null then v else x)

/-- Mean of the present values (`Series.mean()`); `none` models the `NaN`
mean of an all-null column, for which `fillna(NaN)` is a no-op. -/
def Column.meanVal (c : Column) : Option ℚ :=
  match c.presentValues with
  | [] => none
  | x :: xs => some ((x :: xs).sum / ((x :: xs).length : ℚ))

/-- Median of the present values (`Series.median()` is the 0.5 linear
quantile). -/
def Column.medianVal (c : Column) : Option ℚ :=
  c.quantile (1/2)

/-- Rendering of a rational fill value in a log message (stands for
Python's `str(value)`; the exact digits are irrelevant to every claim). -/
def showRat (q : ℚ) : String :=
  toString q.num ++ "/" ++ toString q.den

/-- Rendering of a cell fill value in a log message. -/
def showCell : Cell → String
  | Cell.null => "nan"
  | Cell.num q => showRat q
  | Cell.str s => s

/-- Fill the nulls of a numeric column with an optional fill value
(`fillna(mean)`; a `NaN` fill value leaves the column unchanged). -/
def numericFill (c : Column) (v : Option ℚ) : Column :=
  match v with
  | none => c
  | some m => { c with cells := fillCells c.cells (Cell.num m) }

/-- Log text of the optional numeric fill value (`NaN` prints as `nan`). -/
def fillValStr (v : Option ℚ) : String :=
  match v with
  | none => "nan"
  | some m => showRat m

/-- The fix-log entry of one `fix_missing` fill:
`f"Filled missing '{col}' with {fill_value}"` (quote punctuation elided). -/
def fillLogMsg (name val : String) : String :=
  "Filled missing " ++ name ++ " with " ++ val

/-- The column-by-column loop of `cleanops` `DataCleaner.fix_missing`,
translated clause for clause: a column with no missing cells is skipped
silently; a numeric column is filled with its mean or median per
`strategy`, any other strategy raising
`ValueError("strategy must be 'mean' or 'median'")` — the columns already
processed keep their fills; a non-numeric column is filled with its mode,
or the literal `"Unknown"` when the mode is empty.  Returns the (possibly
partially) mutated columns, the log entries appended, and the error. -/
def fixMissingGo (strategy : String) : List Column → List Column × List String × Option String
  | [] => ([], [], none)
  | c :: rest =>
    if c.missingCount = 0 then
      let r := fixMissingGo strategy rest
      (c :: r.1, r.2.1, r.2.2)
    else if c.isNumeric then
      if strategy = "mean" then
        let v := c.meanVal
        let r := fixMissingGo strategy rest
        (numericFill c v :: r.1, fillLogMsg c.name (fillValStr v) :: r.2.1, r.2.2)
      else if strategy = "median" then
        let v := c.medianVal
        let r := fixMissingGo strategy rest
        (numericFill c v :: r.1, fillLogMsg c.name (fillValStr v) :: r.2.1, r.2.2)
      else
        (c :: rest, [], some "strategy must be mean or median")
    else
      let v := (modeCell c.cells).getD (Cell.str "Unknown")
      let r := fixMissingGo strategy rest
      ({ c with cells := fillCells c.cells v } :: r.1,
        fillLogMsg c.name (showCell v) :: r.2.1, r.2.2)

/-- `cleanops` `DataCleaner.fix_missing(strategy)`. -/
def cleanopsFixMissing (strategy : String) (t : Table) : Table × List String × Option String :=
  fixMissingGo strategy t

/-- Clip one cell to `[lo, hi]` (`Series.clip(lower, upper)`): values below
the lower bound become the lower bound, values above the upper bound become
the upper bound, everything else — including nulls — is untouched. -/
def clipCell (lo hi : ℚ) : Cell → Cell
  | Cell.num v => if v < lo then Cell.num lo else if hi < v then Cell.num hi else Cell.num v
  | x => x

/-- Clip a column to its freshly recomputed IQR bounds (an all-null column
has `NaN` bounds and is left unchanged, as pandas `clip` with `NaN` bounds
leaves every value in place). -/
def Column.clipToBounds (c : Column) : Column :=
  match c.iqrBounds with
  | none => c
  | some (lo, hi) => { c with cells := c.cells.map (clipCell lo hi) }

/-- The fix-log entry of one `fix_outliers` column:
`f"Clipped outliers in '{col}'"` (quote punctuation elided). -/
def clipLogMsg (name : String) : String :=
  "Clipped outliers in " ++ name

/-- The numeric-column loop of `cleanops` `DataCleaner.fix_outliers`: for
every numeric column recompute the quantile bounds, then — strategy
permitting — clip and log; any other strategy raises
`ValueError("strategy must be 'clip' for now")` at the first numeric
column, before anything was mutated.  Non-numeric columns are not touched
and not logged. -/
def fixOutliersGo (strategy : String) : List Column → List Column × List String × Option String
  | [] => ([], [], none)
  | c :: rest =>
    if c.isNumeric then
      if strategy = "clip" then
        let r := fixOutliersGo strategy rest
        (c.clipToBounds :: r.1, clipLogMsg c.name :: r.2.1, r.2.2)
      else
        (c :: rest, [], some "strategy must be clip for now")
    else
      let r := fixOutliersGo strategy rest
      (c :: r.1, r.2.1, r.2.2)

/-- `cleanops` `DataCleaner.fix_outliers(strategy)`. -/
def cleanopsFixOutliers (strategy : String) (t : Table) : Table × List String × Option String :=
  fixOutliersGo strategy t

/-- The seen-set loop behind pandas `drop_duplicates(keep="first")`: keep a
row when its key (the projection `f`, the hashed key tuple in pandas) has
not been seen on an earlier row; `seen` accumulates the keys of the kept
rows (every dropped row has the same key as a kept one, so the test is the
same as against all earlier rows). -/
def dedupKeepFirstAux {α : Type} [DecidableEq α] (f : Row → α) (seen : List α) :
    List Row → List Row
  | [] => []
  | r :: rs =>
    if f r ∈ seen then dedupKeepFirstAux f seen rs
    else r :: dedupKeepFirstAux f (f r :: seen) rs

/-- `drop_duplicates(keep="first")` under the key projection `f`. -/
def dedupKeepFirst {α : Type} [DecidableEq α] (f : Row → α) (rs : List Row) : List Row :=
  dedupKeepFirstAux f [] rs

/-- The key of a row for `drop_duplicates(subset=[column])` where `column`
sits at position `idx` in the column order. -/
def keyAt (idx : Nat) (r : Row) : Cell :=
  r.getD idx Cell.null

/-- `src/data_preprocessor.py` / `src/data_doctor.py` `fix_duplicates()`:
whole-row `drop_duplicates(inplace=True)` keeping the first occurrence,
followed by exactly one fix-log entry
`f"{removed} duplicate rows removed."` where `removed` is the row-count
difference — appended even when `removed` is zero. -/
def dataPreprocessorFixDuplicates (t : Table) : Table × String :=
  let kept := dedupKeepFirst id t.rows
  let t' := Table.ofRows t.names kept
  (t', toString (t.nrows - t'.nrows) ++ " duplicate rows removed.")

/-- `cleanops` `DataCleaner.fix_duplicates(column)`:
`drop_duplicates(subset=[column], inplace=True)`, which raises a `KeyError`
— before touching the data — when the column does not exist, and otherwise
keeps the first row of every key group and appends exactly one fix-log
entry `f"Removed {removed} duplicate rows based on column '{column}'"`
(quote punctuation elided), even when `removed` is zero. -/
def cleanopsFixDuplicates (column : String) (t : Table) : Table × List String × Option String :=
  match t.names.findIdx? (fun n => n == column) with
  | none => (t, [], some ("KeyError: " ++ column))
  | some idx =>
    let kept := dedupKeepFirst (keyAt idx) t.rows
    let t' := Table.ofRows t.names kept
    (t', ["Removed " ++ toString (t.nrows - t'.nrows) ++ " duplicate rows based on column " ++ column], none)

/-- The `fix_duplicates` operation of the engine, indexed by the optional
dedup key: with the key omitted it is the key-less whole-row variant
(`src/data_preprocessor.py` / `src/data_doctor.py`); with a key it is the
key-based `cleanops` variant.  Each branch is the respective source
function unchanged. -/
def fixDuplicates (key : Option String) (t : Table) : Table × List String × Option String :=
  match key with
  | none =>
    let r := dataPreprocessorFixDuplicates t
    (r.1, [r.2], none)
  | some column => cleanopsFixDuplicates column t

/-- The key order on rows used by `sort_values(by=column)`: compare the
cells at the key column's position. -/
def rowLe (idx : Nat) (a b : Row) : Prop :=
  cellLE (keyAt idx a) (keyAt idx b) = true

instance (idx : Nat) : DecidableRel (rowLe idx) := by
  intro a b; unfold rowLe; infer_instance

/-- `DataOrganizer.sort_rows(column_name)`: raise
`ValueError(f"Column '{column_name}' does not exist.")` (quote punctuation
elided) when the column is absent — before any mutation — and otherwise
reorder the rows ascending by the values of that column, null cells placed
last (`sort_values` defaults). -/
def sortRowsRun (column : String) (t : Table) : Table × Option String :=
  match t.names.findIdx? (fun n => n == column) with
  | none => (t, some ("Column " ++ column ++ " does not exist."))
  | some idx => (Table.ofRows t.names (t.rows.insertionSort (rowLe idx)), none)

/-- `DiagnosisSuggestions` is a Python `dict`; model it as an association
list in insertion order. -/
abbrev Suggestions := List (String × List String)

/-- Python `d[k] = v`: replace in place when the key exists (a Python dict
keeps the key's original position; keys are unique, so the first match is
the only one), append at the end otherwise. -/
def alSet : Suggestions → String → List String → Suggestions
  | [], k, v => [(k, v)]
  | p :: m, k, v => if p.1 = k then (k, v) :: m else p :: alSet m k v

/-- Python `d.get(k, [])`. -/
def alGet (m : Suggestions) (k : String) : List String :=
  ((m.find? (fun p => p.1 == k)).map (·.2)).getD []

/-- `f"{count} missing values"`. -/
def missingMsg (n : Nat) : String := toString n ++ " missing values"

/-- `f"{issues['duplicates']} duplicate rows"`. -/
def dupMsg (n : Nat) : String := toString n ++ " duplicate rows"

/-- `f"{count} outliers detected"`. -/
def outlierMsg (n : Nat) : String := toString n ++ " outliers detected"

/-- Phase 1 of `cleanops` `DataCleaner.diagnose`: for every column with a
positive missing count, `suggestions[col] = [f"{count} missing values"]`. -/
def diagMissingStep (m : Suggestions) (p : String × Nat) : Suggestions :=
  if 0 < p.2 then alSet m p.1 [missingMsg p.2] else m

/-- Phase 3 of `cleanops` `DataCleaner.diagnose`: for every numeric column
with a positive outlier count,
`suggestions[col] = suggestions.get(col, []) + [f"{count} outliers detected"]`. -/
def diagOutlierStep (m : Suggestions) (p : String × Nat) : Suggestions :=
  if 0 < p.2 then alSet m p.1 (alGet m p.1 ++ [outlierMsg p.2]) else m

/-- `cleanops` `DataCleaner.diagnose()`: run the inspections, then emit the
missing-value suggestions keyed by column, then — when the duplicate count
is positive — assign the `"Dataset"` entry, then append the outlier
suggestions to their columns' entries. -/
def diagnose (t : Table) : Suggestions :=
  let m1 := (detectMissing t).foldl diagMissingStep []
  let m2 := if 0 < detectDuplicates t then
      alSet m1 "Dataset" [dupMsg (detectDuplicates t)]
    else m1
  (detectOutliers t).foldl diagOutlierStep m2

/-- `ReportGenerator.report`'s z-score outlier count for one numeric
column: values more than three sample standard deviations
(`Series.std()`, `ddof=1`) from the mean.  The square-root-free test
`9·Σ(x-μ)² < (x-μ)²·(n-1)` is equivalent: for `σ ≥ 0`,
`x < μ-3σ ∨ μ+3σ < x` iff `(x-μ)² > 9σ²`, and `σ² = Σ(x-μ)²/(n-1)`.  With
fewer than two present values the standard deviation is `NaN` and every
comparison is false. -/
def Column.zOutlierCount (c : Column) : Nat :=
  let xs := c.presentValues
  let n := xs.length
  if n ≤ 1 then 0
  else
    let μ := xs.sum / (n : ℚ)
    let ss := (xs.map (fun x => (x - μ) ^ 2)).sum
    xs.countP (fun x => decide (9 * ss < (x - μ) ^ 2 * ((n : ℚ) - 1)))

/-- `ReportGenerator.report()` restricted to the per-column z-score outlier
counts (numeric columns only, in column order). -/
def reportOutliers (t : Table) : List (String × Nat) :=
  (t.filter (fun c => c.isNumeric)).map (fun c => (c.name, c.zOutlierCount))

/-- The `total` of `ReportGenerator.health_score`: all missing counts, plus
the duplicate count, plus all z-score outlier counts of one freshly
computed report. -/
def totalDefects (t : Table) : Nat :=
  ((detectMissing t).map (·.2)).sum + detectDuplicates t + ((reportOutliers t).map (·.2)).sum

/-- `ReportGenerator.health_score()` with no cached report: compute the
report and return `max(0, 100 - total)`. -/
def healthScore (t : Table) : Int :=
  max 0 (100 - (totalDefects t : Int))

/-- `cleanops` components copy the dataframe on construction
(`self._data = dataframe.copy()` in `DataInspector.__init__`, inherited by
`DataCleaner`), so every mutating method acts on the private copy and the
table held by the caller is untouched: the caller's table after any
`cleanops` `fix_*` call is the table passed to the constructor. -/
def cleanopsCallerTableAfterFixes (df : Table) : Table := df

/-- `data_doctor.DataDoctor` stores the caller's dataframe by reference
(`self._data = dataframe` in `data_inspector.DataInspector.__init__`, no
copy), and `fix_duplicates` mutates it in place
(`drop_duplicates(inplace=True)`), so the table the caller holds after the
call is the deduplicated table. -/
def dataDoctorCallerTableAfterFixDuplicates (df : Table) : Table :=
  (dataPreprocessorFixDuplicates df).1

/-- Specification-side restatement of keep-first deduplication, written by
structural recursion instead of a seen set: keep the head row and drop
every later row with the same key, then continue.  Proved equal to
`dedupKeepFirst` below; the equality is what "removes exactly the rows that
duplicate an earlier row, keeping the first occurrence" means. -/
def firstOccFilter {α : Type} [DecidableEq α] (f : Row → α) : List Row → List Row
  | [] => []
  | r :: rs => r :: firstOccFilter f (rs.filter (fun x => !decide (f x = f r)))
termination_by l => l.length
decreasing_by
  simp only [List.length_cons]
  have := List.length_filter_le (fun x => !decide (f x = f r)) rs
  omega

/-- The `age`/`name` table of the spec's concrete scenario (§8). -/
def exTable : Table :=
  [⟨"age", [Cell.num 25, Cell.num 26, Cell.num 1000, Cell.num 24, Cell.null]⟩,
   ⟨"name", [Cell.str "A", Cell.str "B", Cell.str "C", Cell.str "A", Cell.str "E"]⟩]

/-- A constant-quartile numeric column: `Q1 = Q3 = 5`, one deviating
value. -/
def c8Col : Column := ⟨"x", [Cell.num 5, Cell.num 5, Cell.num 5, Cell.num 5, Cell.num 7]⟩

/-- A table whose single duplicated caller-visible row exposes the missing
defensive copy of `data_doctor`/`data_inspector`. -/
def c2Table : Table := [⟨"x", [Cell.num 1, Cell.num 1]⟩]

/-- A text column with a missing cell placed before a numeric column with a
missing cell: `fix_missing` with a bad strategy fills the text column and
only then raises at the numeric one. -/
def c3Table : Table :=
  [⟨"name", [Cell.str "A", Cell.null]⟩, ⟨"age", [Cell.num 1, Cell.null]⟩]

/-- A table with no missing cell and no numeric column: no strategy
validation is ever reached. -/
def c4TextTable : Table := [⟨"name", [Cell.str "A"]⟩]

/-- A table with a numeric column that has a missing cell: an invalid
strategy is detected there. -/
def c4NumTable : Table := [⟨"a", [Cell.null, Cell.num 1]⟩]

/-- Two columns, one duplicated key value in `k` (rows distinct as whole
rows). -/
def c5Table : Table :=
  [⟨"k", [Cell.num 1, Cell.num 1, Cell.num 2]⟩,
   ⟨"v", [Cell.str "a", Cell.str "b", Cell.str "c"]⟩]

/-- A column literally named `"Dataset"` with one missing cell, in a table
that also has a duplicate row: the diagnose duplicate entry overwrites the
column's missing entry. -/
def cdsTable : Table := [⟨"Dataset", [Cell.null, Cell.num 1, Cell.num 1]⟩]

/-- A numeric column with both a missing cell and an IQR outlier
(`Q1 = Q3 = 1`, the value 9 deviates). -/
def c6wCol : Column :=
  ⟨"age", [Cell.null, Cell.num 1, Cell.num 1, Cell.num 1, Cell.num 1, Cell.num 9]⟩

/-- Table of [[c6wCol]]. -/
def c6wTable : Table := [c6wCol]

/-- A defect-free table: no missing cells, no duplicate rows, no z-score
outliers. -/
def c7CleanTable : Table := [⟨"x", [Cell.num 1, Cell.num 2]⟩]

/-- A table with 150 missing cells (one all-null column per name), hence
at least 100 total defects. -/
def c7BigTable : Table :=
  (List.range 150).map (fun i => ⟨"c" ++ toString i, [Cell.null]⟩)

/-- A single column with one whole-row duplicate. -/
def c9Table : Table := [⟨"k", [Cell.num 1, Cell.num 1, Cell.num 2]⟩]

/-- A numeric column with a null, out of order. -/
def c10Table : Table := [⟨"age", [Cell.num 2, Cell.null, Cell.num 1]⟩]

lemma range_map_getD {r : Row} {n : Nat} (h : r.length = n) :
    (List.range n).map (fun j => r.getD j Cell.null) = r := by
  apply List.ext_getElem
  · simp [h]
  · intro i h1 h2
    have hi : i < n := by simpa using h1
    have hir : i < r.length := by omega
    simp only [List.getElem_map, List.getElem_range]
    exact List.getD_eq_getElem r Cell.null hir

lemma Table.names_ofRows (names : List String) (rs : List Row) :
    (Table.ofRows names rs).names = names := by
  unfold Table.ofRows Table.names
  rw [List.map_map]
  have : ((fun c : Column => c.name) ∘ fun p : Nat × String =>
      (⟨p.2, rs.map (fun r => r.getD p.1 Cell.null)⟩ : Column)) = Prod.snd := rfl
  rw [this]
  simp

lemma Table.length_ofRows (names : List String) (rs : List Row) :
    (Table.ofRows names rs).length = names.length := by
  unfold Table.ofRows; simp

lemma Table.ofRows_nil (rs : List Row) : Table.ofRows [] rs = [] := rfl

lemma Table.nrows_ofRows (names : List String) (rs : List Row) (hn : names ≠ []) :
    (Table.ofRows names rs).nrows = rs.length := by
  cases names with
  | nil => exact absurd rfl hn
  | cons a l =>
    unfold Table.ofRows Table.nrows
    rw [List.enum_cons]
    simp

lemma Table.length_row (t : Table) (i : Nat) : (t.row i).length = t.length := by
  unfold Table.row; simp

lemma Table.length_rows (t : Table) : t.rows.length = t.nrows := by
  unfold Table.rows; simp

lemma Table.length_mem_rows (t : Table) {r : Row} (hr : r ∈ t.rows) :
    r.length = t.length := by
  unfold Table.rows at hr
  obtain ⟨i, _, rfl⟩ := List.mem_map.mp hr
  exact t.length_row i

lemma Table.rows_ofRows (names : List String) (rs : List Row) (hn : names ≠ [])
    (hr : ∀ r ∈ rs, r.length = names.length) :
    (Table.ofRows names rs).rows = rs := by
  unfold Table.rows
  rw [Table.nrows_ofRows names rs hn]
  apply List.ext_getElem
  · simp
  · intro i h1 h2
    have hi : i < rs.length := by simpa using h2
    simp only [List.getElem_map, List.getElem_range]
    unfold Table.row Table.ofRows
    rw [List.map_map]
    have hfun : ((fun c : Column => c.cells.getD i Cell.null) ∘ fun p : Nat × String =>
        (⟨p.2, rs.map (fun r => r.getD p.1 Cell.null)⟩ : Column)) =
        fun p : Nat × String => (rs.map (fun r => r.getD p.1 Cell.null)).getD i Cell.null := rfl
    rw [hfun]
    have hstep : ∀ p : Nat × String,
        (rs.map (fun r => r.getD p.1 Cell.null)).getD i Cell.null = rs[i].getD p.1 Cell.null := by
      intro p
      have hml : i < (rs.map (fun r => r.getD p.1 Cell.null)).length := by simpa using hi
      rw [List.getD_eq_getElem _ Cell.null hml, List.getElem_map]
    rw [List.map_congr_left (fun p _ => hstep p)]
    have hcomp : (fun p : Nat × String => rs[i].getD p.1 Cell.null) =
        (fun j : Nat => rs[i].getD j Cell.null) ∘ Prod.fst := rfl
    rw [hcomp, ← List.map_map]
    have : names.enum.map Prod.fst = List.range names.length := by simp
    rw [this]
    exact range_map_getD (hr rs[i] (List.getElem_mem hi))

lemma Table.ofRows_rows (t : Table) (hwf : t.WellFormed) :
    Table.ofRows t.names t.rows = t := by
  apply List.ext_getElem
  · rw [Table.length_ofRows]; unfold Table.names; simp
  · intro j h1 h2
    have hj : j < t.length := h2
    unfold Table.ofRows
    have hje : j < t.names.enum.length := by
      simpa [Table.names] using hj
    have hjn : j < t.names.length := by
      simpa [Table.names] using hj
    simp only [List.getElem_map]
    have henum : t.names.enum[j] = (j, t.names[j]) := by
      simp
    rw [henum]
    have hname : t.names[j] = t[j].name := by
      simp [Table.names]
    have hcells : t.rows.map (fun r => r.getD j Cell.null) = t[j].cells := by
      unfold Table.rows
      rw [List.map_map]
      have hfun : ((fun r : Row => r.getD j Cell.null) ∘ t.row) =
          fun i : Nat => t[j].cells.getD i Cell.null := by
        funext i
        show (t.row i).getD j Cell.null = t[j].cells.getD i Cell.null
        unfold Table.row
        have hml : j < (t.map (fun c => c.cells.getD i Cell.null)).length := by simpa using hj
        rw [List.getD_eq_getElem _ Cell.null hml, List.getElem_map]
      rw [hfun]
      exact range_map_getD (hwf t[j] (List.getElem_mem hj))
    rw [hname, hcells]

lemma Table.wellFormed_ofRows (names : List String) (rs : List Row) :
    (Table.ofRows names rs).WellFormed := by
  intro c hc
  cases names with
  | nil => simp [Table.ofRows_nil] at hc
  | cons a l =>
    rw [Table.nrows_ofRows (a :: l) rs (by simp)]
    unfold Table.ofRows at hc
    obtain ⟨p, _, rfl⟩ := List.mem_map.mp hc
    simp

lemma dedupKeepFirstAux_sublist {α : Type} [DecidableEq α] (f : Row → α)
    (seen : List α) (rs : List Row) :
    (dedupKeepFirstAux f seen rs).Sublist rs := by
  induction rs generalizing seen with
  | nil => simp [dedupKeepFirstAux]
  | cons r rs ih =>
    unfold dedupKeepFirstAux
    by_cases h : f r ∈ seen
    · rw [if_pos h]; exact (ih seen).cons r
    · rw [if_neg h]; exact (ih (f r :: seen)).cons₂ r

lemma dedupKeepFirstAux_key_not_seen {α : Type} [DecidableEq α] (f : Row → α)
    (seen : List α) (rs : List Row) :
    ∀ x ∈ dedupKeepFirstAux f seen rs, f x ∉ seen := by
  induction rs generalizing seen with
  | nil => simp [dedupKeepFirstAux]
  | cons r rs ih =>
    unfold dedupKeepFirstAux
    by_cases h : f r ∈ seen
    · rw [if_pos h]; exact ih seen
    · rw [if_neg h]
      intro x hx
      rcases List.mem_cons.mp hx with rfl | hx'
      · exact h
      · intro hxs
        exact ih (f r :: seen) x hx' (List.mem_cons_of_mem _ hxs)

lemma dedupKeepFirstAux_pairwise {α : Type} [DecidableEq α] (f : Row → α)
    (seen : List α) (rs : List Row) :
    (dedupKeepFirstAux f seen rs).Pairwise (fun a b => f a ≠ f b) := by
  induction rs generalizing seen with
  | nil => simp [dedupKeepFirstAux]
  | cons r rs ih =>
    unfold dedupKeepFirstAux
    by_cases h : f r ∈ seen
    · rw [if_pos h]; exact ih seen
    · rw [if_neg h]
      refine List.Pairwise.cons ?_ (ih (f r :: seen))
      intro b hb heq
      exact dedupKeepFirstAux_key_not_seen f (f r :: seen) rs b hb (heq ▸ List.mem_cons_self _ _)

lemma dedupKeepFirstAux_of_pairwise {α : Type} [DecidableEq α] (f : Row → α)
    {rs : List Row} (h : rs.Pairwise (fun a b => f a ≠ f b))
    (seen : List α) (hseen : ∀ x ∈ rs, f x ∉ seen) :
    dedupKeepFirstAux f seen rs = rs := by
  induction rs generalizing seen with
  | nil => rfl
  | cons r rs ih =>
    unfold dedupKeepFirstAux
    rw [if_neg (hseen r (List.mem_cons_self _ _))]
    congr 1
    apply ih (List.Pairwise.of_cons h)
    intro x hx
    intro hmem
    rcases List.mem_cons.mp hmem with heq | hmem'
    · exact (List.pairwise_cons.mp h).1 x hx heq.symm
    · exact hseen x (List.mem_cons_of_mem _ hx) hmem'

lemma dedupKeepFirst_idem {α : Type} [DecidableEq α] (f : Row → α) (rs : List Row) :
    dedupKeepFirst f (dedupKeepFirst f rs) = dedupKeepFirst f rs := by
  unfold dedupKeepFirst
  exact dedupKeepFirstAux_of_pairwise f (dedupKeepFirstAux_pairwise f [] rs) [] (by simp)

lemma dedupKeepFirstAux_length_add_dupCount {α : Type} [DecidableEq α] (f : Row → α)
    (rs : List Row) (seen1 seen2 : List α) (hs : ∀ x, x ∈ seen1 ↔ x ∈ seen2) :
    (dedupKeepFirstAux f seen1 rs).length + dupCountAux f seen2 rs = rs.length := by
  induction rs generalizing seen1 seen2 with
  | nil => rfl
  | cons r rs ih =>
    unfold dedupKeepFirstAux dupCountAux
    by_cases h : f r ∈ seen1
    · rw [if_pos h, if_pos ((hs (f r)).mp h)]
      have := ih seen1 (f r :: seen2) (by
        intro x
        rw [List.mem_cons]
        constructor
        · intro hx; exact Or.inr ((hs x).mp hx)
        · rintro (rfl | hx)
          · exact h
          · exact (hs x).mpr hx)
      simp only [List.length_cons]
      omega
    · rw [if_neg h, if_neg (fun hx => h ((hs (f r)).mpr hx))]
      have := ih (f r :: seen1) (f r :: seen2) (by
        intro x
        simp only [List.mem_cons]
        exact or_congr Iff.rfl (hs x))
      simp only [List.length_cons]
      omega

lemma dedupKeepFirstAux_eq_firstOccFilter {α : Type} [DecidableEq α] (f : Row → α)
    (rs : List Row) (seen : List α) :
    dedupKeepFirstAux f seen rs =
      firstOccFilter f (rs.filter (fun r => !decide (f r ∈ seen))) := by
  induction rs generalizing seen with
  | nil => simp [dedupKeepFirstAux, firstOccFilter]
  | cons r rs ih =>
    unfold dedupKeepFirstAux
    by_cases h : f r ∈ seen
    · rw [if_pos h, List.filter_cons_of_neg (by simpa using h)]
      exact ih seen
    · rw [if_neg h, List.filter_cons_of_pos (by simpa using h)]
      rw [firstOccFilter]
      congr 1
      rw [ih (f r :: seen), List.filter_filter]
      congr 1
      apply List.filter_congr
      intro x _
      by_cases h1 : f x = f r <;> by_cases h2 : f x ∈ seen <;>
        simp [h1, h2]

lemma dedupKeepFirst_eq_firstOccFilter {α : Type} [DecidableEq α] (f : Row → α)
    (rs : List Row) :
    dedupKeepFirst f rs = firstOccFilter f rs := by
  unfold dedupKeepFirst
  rw [dedupKeepFirstAux_eq_firstOccFilter]
  congr 1
  simp

lemma cellLE_total (a b : Cell) : cellLE a b = true ∨ cellLE b a = true := by
  cases a <;> cases b <;> simp [cellLE] <;> exact le_total _ _

lemma cellLE_trans {a b c : Cell} (hab : cellLE a b = true) (hbc : cellLE b c = true) :
    cellLE a c = true := by
  cases a <;> cases b <;> cases c <;> simp_all [cellLE] <;> exact le_trans hab hbc

lemma cellLE_null_left {b : Cell} (h : cellLE Cell.null b = true) : b = Cell.null := by
  cases b <;> simp_all [cellLE]

instance (idx : Nat) : IsTotal Row (rowLe idx) :=
  ⟨fun a b => cellLE_total (keyAt idx a) (keyAt idx b)⟩

instance (idx : Nat) : IsTrans Row (rowLe idx) :=
  ⟨fun _ _ _ hab hbc => cellLE_trans hab hbc⟩

lemma alGet_alSet_same (m : Suggestions) (k : String) (v : List String) :
    alGet (alSet m k v) k = v := by
  induction m with
  | nil => simp [alSet, alGet]
  | cons p m ih =>
    unfold alSet
    by_cases h : p.1 = k
    · rw [if_pos h]; simp [alGet]
    · rw [if_neg h]
      unfold alGet
      rw [List.find?_cons_of_neg _ (by simpa using h)]
      exact ih

lemma alGet_alSet_ne (m : Suggestions) (k k' : String) (v : List String) (h : k' ≠ k) :
    alGet (alSet m k v) k' = alGet m k' := by
  induction m with
  | nil =>
    simp only [alSet]
    unfold alGet
    rw [List.find?_cons_of_neg _ (by simpa using h.symm)]
  | cons p m ih =>
    unfold alSet
    by_cases hp : p.1 = k
    · rw [if_pos hp]
      unfold alGet
      have h1 : ¬((k, v).1 = k') := fun he => h (he ▸ rfl)
      have h2 : ¬(p.1 = k') := fun he => h (he.symm.trans hp)
      rw [List.find?_cons_of_neg _ (by simpa using h1),
        List.find?_cons_of_neg _ (by simpa using h2)]
    · rw [if_neg hp]
      unfold alGet
      by_cases hk' : p.1 = k'
      · rw [List.find?_cons_of_pos _ (by simpa using hk'),
          List.find?_cons_of_pos _ (by simpa using hk')]
      · rw [List.find?_cons_of_neg _ (by simpa using hk'),
          List.find?_cons_of_neg _ (by simpa using hk')]
        exact ih

lemma foldl_diagMissingStep_ne (l : List (String × Nat)) (m : Suggestions) (k : String)
    (hk : ∀ p ∈ l, p.1 ≠ k) :
    alGet (l.foldl diagMissingStep m) k = alGet m k := by
  induction l generalizing m with
  | nil => rfl
  | cons p l ih =>
    rw [List.foldl_cons]
    rw [ih _ (fun q hq => hk q (List.mem_cons_of_mem _ hq))]
    unfold diagMissingStep
    by_cases hp : 0 < p.2
    · rw [if_pos hp, alGet_alSet_ne _ _ _ _ (fun he => hk p (List.mem_cons_self _ _) he.symm)]
    · rw [if_neg hp]

lemma foldl_diagMissingStep_mem (l : List (String × Nat)) (m : Suggestions) (k : String)
    (n : Nat) (hnd : (l.map Prod.fst).Nodup) (hmem : (k, n) ∈ l) (hn : 0 < n) :
    alGet (l.foldl diagMissingStep m) k = [missingMsg n] := by
  induction l generalizing m with
  | nil => exact absurd hmem (List.not_mem_nil _)
  | cons p l ih =>
    rw [List.map_cons] at hnd
    have hnd1 := (List.nodup_cons.mp hnd).1
    have hnd2 := (List.nodup_cons.mp hnd).2
    rw [List.foldl_cons]
    rcases List.mem_cons.mp hmem with heq | hmem'
    · subst heq
      have hkeys : ∀ q ∈ l, q.1 ≠ (k, n).1 := by
        intro q hq he
        exact hnd1 (he ▸ List.mem_map_of_mem Prod.fst hq)
      rw [foldl_diagMissingStep_ne l _ _ hkeys]
      unfold diagMissingStep
      rw [if_pos hn, alGet_alSet_same]
    · have hp1 : p.1 ≠ k := by
        intro he
        exact hnd1 (he ▸ List.mem_map_of_mem Prod.fst hmem')
      exact ih _ hnd2 hmem'

lemma foldl_diagOutlierStep_mono (l : List (String × Nat)) (m : Suggestions) (k : String) :
    ∃ ext, alGet (l.foldl diagOutlierStep m) k = alGet m k ++ ext := by
  induction l generalizing m with
  | nil => exact ⟨[], (List.append_nil _).symm⟩
  | cons p l ih =>
    rw [List.foldl_cons]
    obtain ⟨ext, he⟩ := ih (diagOutlierStep m p)
    unfold diagOutlierStep at he ⊢
    by_cases hp : 0 < p.2
    · rw [if_pos hp] at he
      by_cases hk : p.1 = k
      · subst hk
        rw [alGet_alSet_same] at he
        exact ⟨outlierMsg p.2 :: ext, by rw [if_pos hp, he, List.append_assoc]; rfl⟩
      · rw [alGet_alSet_ne _ _ _ _ (fun h => hk h.symm)] at he
        exact ⟨ext, by rw [if_pos hp]; exact he⟩
    · rw [if_neg hp] at he
      exact ⟨ext, by rw [if_neg hp]; exact he⟩

lemma foldl_diagOutlierStep_mem (l : List (String × Nat)) (m : Suggestions) (k : String)
    (n : Nat) (hnd : (l.map Prod.fst).Nodup) (hmem : (k, n) ∈ l) (hn : 0 < n) :
    outlierMsg n ∈ alGet (l.foldl diagOutlierStep m) k := by
  induction l generalizing m with
  | nil => exact absurd hmem (List.not_mem_nil _)
  | cons p l ih =>
    rw [List.map_cons] at hnd
    have hnd1 := (List.nodup_cons.mp hnd).1
    have hnd2 := (List.nodup_cons.mp hnd).2
    rw [List.foldl_cons]
    rcases List.mem_cons.mp hmem with heq | hmem'
    · subst heq
      obtain ⟨ext, he⟩ := foldl_diagOutlierStep_mono l (diagOutlierStep m (k, n)) k
      rw [he]
      unfold diagOutlierStep
      rw [if_pos hn, alGet_alSet_same]
      exact List.mem_append_left _ (List.mem_append_right _ (List.mem_singleton.mpr rfl))
    · exact ih _ hnd2 hmem'

lemma fixOutliersGo_clip (l : List Column) :
    fixOutliersGo "clip" l =
      (l.map (fun c => if c.isNumeric then c.clipToBounds else c),
       (l.filter (fun c => c.isNumeric)).map (fun c => clipLogMsg c.name),
       none) := by
  induction l with
  | nil => rfl
  | cons c rest ih =>
    rw [fixOutliersGo]
    by_cases h : c.isNumeric <;> simp [h, ih, List.filter_cons]

lemma fixOutliersGo_err_iff (s : String) (h : s ≠ "clip") (l : List Column) :
    (fixOutliersGo s l).2.2 ≠ none ↔ ∃ c ∈ l, c.isNumeric = true := by
  induction l with
  | nil => simp [fixOutliersGo]
  | cons c rest ih =>
    rw [fixOutliersGo]
    by_cases hn : c.isNumeric
    · rw [if_pos hn, if_neg h]
      simp [hn]
    · rw [if_neg hn]
      simp only [List.exists_mem_cons_iff]
      rw [← ih]
      simp [hn]

lemma fixOutliersGo_err_unchanged (s : String) (l : List Column)
    (h : (fixOutliersGo s l).2.2 ≠ none) : (fixOutliersGo s l).1 = l := by
  by_cases hs : s = "clip"
  · subst hs
    rw [fixOutliersGo_clip] at h
    exact absurd rfl h
  · induction l with
    | nil => rfl
    | cons c rest ih =>
      rw [fixOutliersGo] at h ⊢
      by_cases hn : c.isNumeric
      · rw [if_pos hn, if_neg hs] at h ⊢
      · rw [if_neg hn] at h ⊢
        simp only at h ⊢
        rw [ih h]

lemma fixMissingGo_err_iff (s : String) (h1 : s ≠ "mean") (h2 : s ≠ "median")
    (l : List Column) :
    (fixMissingGo s l).2.2 ≠ none ↔
      ∃ c ∈ l, c.isNumeric = true ∧ 0 < c.missingCount := by
  induction l with
  | nil => simp [fixMissingGo]
  | cons c rest ih =>
    rw [fixMissingGo]
    by_cases hm : c.missingCount = 0
    · rw [if_pos hm]
      simp only [List.exists_mem_cons_iff]
      rw [← ih]
      simp [hm]
    · rw [if_neg hm]
      by_cases hn : c.isNumeric
      · rw [if_pos hn, if_neg h1, if_neg h2]
        simp only [List.exists_mem_cons_iff]
        constructor
        · intro _; exact Or.inl ⟨hn, Nat.pos_of_ne_zero hm⟩
        · intro _; simp
      · rw [if_neg hn]
        simp only [List.exists_mem_cons_iff]
        rw [← ih]
        simp [hn]

/-- C1: for every Table, `fix_outliers` with strategy `"clip"` returns
normally, maps every numeric column to its clip to the freshly recomputed
IQR bounds — the same `iqrBounds` that `detect_outliers` counts against —
leaves non-numeric columns unchanged, and appends exactly one fix-log entry
per numeric column (even when zero values changed); per cell, values below
the lower bound become the lower bound, values above the upper bound become
the upper bound, and values inside the bounds are untouched. -/
theorem fixOutliers_clip_spec (t : Table) :
    (cleanopsFixOutliers "clip" t).2.2 = none ∧
    (cleanopsFixOutliers "clip" t).1 =
      t.map (fun c => if c.isNumeric then c.clipToBounds else c) ∧
    (cleanopsFixOutliers "clip" t).2.1 =
      (t.filter (fun c => c.isNumeric)).map (fun c => clipLogMsg c.name) ∧
    (∀ c : Column, ∀ lo hi : ℚ, c.iqrBounds = some (lo, hi) →
      c.clipToBounds.cells = c.cells.map (clipCell lo hi) ∧
      c.outlierCount =
        c.presentValues.countP (fun v => decide (v < lo) || decide (hi < v))) ∧
    (∀ lo hi v : ℚ, lo ≤ hi →
      (v < lo → clipCell lo hi (Cell.num v) = Cell.num lo) ∧
      (hi < v → clipCell lo hi (Cell.num v) = Cell.num hi) ∧
      (lo ≤ v → v ≤ hi → clipCell lo hi (Cell.num v) = Cell.num v)) := by
  refine ⟨?_, ?_, ?_, ?_, ?_⟩
  · rw [show cleanopsFixOutliers "clip" t = fixOutliersGo "clip" t from rfl,
      fixOutliersGo_clip]
  · rw [show cleanopsFixOutliers "clip" t = fixOutliersGo "clip" t from rfl,
      fixOutliersGo_clip]
  · rw [show cleanopsFixOutliers "clip" t = fixOutliersGo "clip" t from rfl,
      fixOutliersGo_clip]
  · intro c lo hi h
    constructor
    · unfold Column.clipToBounds
      rw [h]
    · unfold Column.outlierCount
      rw [h]
  · intro lo hi v hlohi
    refine ⟨?_, ?_, ?_⟩
    · intro h; simp [clipCell, h]
    · intro h
      have hnlo : ¬ v < lo := not_lt.mpr (le_of_lt (lt_of_le_of_lt hlohi h))
      simp [clipCell, hnlo, h]
    · intro h1 h2
      simp [clipCell, not_lt.mpr h1, not_lt.mpr h2]

/-- C1 witness: the clipping cases evaluated at concrete bounds and
values. -/
theorem fixOutliers_clip_spec_witness :
    clipCell 0 10 (Cell.num (-5)) = Cell.num 0 ∧
    clipCell 0 10 (Cell.num 50) = Cell.num 10 ∧
    clipCell 0 10 (Cell.num 5) = Cell.num 5 :=
  ⟨((fixOutliers_clip_spec []).2.2.2.2 0 10 (-5) (by norm_num)).1 (by norm_num),
   ((fixOutliers_clip_spec []).2.2.2.2 0 10 50 (by norm_num)).2.1 (by norm_num),
   ((fixOutliers_clip_spec []).2.2.2.2 0 10 5 (by norm_num)).2.2 (by norm_num) (by norm_num)⟩

/-- C2 counterexample: `data_inspector.DataInspector.__init__` (inherited
by `DataDoctor`) stores the caller's dataframe without copying, and
`DataDoctor.fix_duplicates` mutates it in place, so for the concrete table
with one duplicated row the caller's table after the call differs from the
table the caller passed in — the claimed construction-time independent copy
does not exist for this component. -/
theorem table_copy_claim_cex :
    dataDoctorCallerTableAfterFixDuplicates c2Table ≠ c2Table := by decide

/-- C2 amended: the `cleanops` components copy the dataframe on
construction, so their mutations never reach the caller's table; but the
`data_inspector`/`data_doctor`/`data_preprocessor`/`datamedic`
Inspector-family constructors (and `data_output`'s `ReportGenerator` and
`DataExporter`) store the caller's table by reference, and an in-place fix
is visible to the caller: after `DataDoctor.fix_duplicates()` the caller
holds the deduplicated table, whose row count is the original row count
minus the duplicate count. -/
theorem table_copy_semantics (df : Table) (hwf : df.WellFormed) :
    cleanopsCallerTableAfterFixes df = df ∧
    (dataDoctorCallerTableAfterFixDuplicates df).nrows + detectDuplicates df = df.nrows := by
  refine ⟨rfl, ?_⟩
  unfold dataDoctorCallerTableAfterFixDuplicates dataPreprocessorFixDuplicates
  cases hdf : df with
  | nil => rfl
  | cons c cs =>
    rw [← hdf]
    have hn : df.names ≠ [] := by rw [hdf]; simp [Table.names]
    simp only
    rw [Table.nrows_ofRows df.names _ hn]
    unfold dedupKeepFirst detectDuplicates
    rw [dedupKeepFirstAux_length_add_dupCount id df.rows [] [] (fun _ => Iff.rfl)]
    exact df.length_rows

/-- C2 amended witness: evaluated at the concrete duplicated-row table. -/
theorem table_copy_semantics_witness :
    cleanopsCallerTableAfterFixes c2Table = c2Table ∧
    (dataDoctorCallerTableAfterFixDuplicates c2Table).nrows + detectDuplicates c2Table =
      c2Table.nrows :=
  table_copy_semantics c2Table (by decide)

/-- C3 counterexample: on a table whose text column (with a missing cell)
precedes a numeric column with a missing cell, `fix_missing` with the
unrecognized strategy `"bogus"` raises the invalid-argument error only
after it has already filled the text column, so the table after the failed
call differs from the table before it. -/
theorem invalid_arg_mutation_cex :
    (cleanopsFixMissing "bogus" c3Table).2.2 ≠ none ∧
    (cleanopsFixMissing "bogus" c3Table).1 ≠ c3Table := by
  constructor
  · decide
  · decide

/-- C3 amended: `sort_rows` with a non-existent column, key-based
`fix_duplicates` with a non-existent column, and `fix_outliers` with an
unrecognized strategy all signal before any mutation, leaving the table
unchanged; `fix_missing` is the exception — its strategy validation runs
per numeric column inside the fill loop, so non-numeric columns earlier in
column order are filled before the error is raised (the counterexample). -/
theorem invalid_arg_no_mutation_amended (t : Table) (column key s : String) :
    ((sortRowsRun column t).2 ≠ none → (sortRowsRun column t).1 = t) ∧
    ((cleanopsFixDuplicates key t).2.2 ≠ none → (cleanopsFixDuplicates key t).1 = t) ∧
    ((cleanopsFixOutliers s t).2.2 ≠ none → (cleanopsFixOutliers s t).1 = t) := by
  refine ⟨?_, ?_, ?_⟩
  · unfold sortRowsRun
    cases h : t.names.findIdx? (fun n => n == column) with
    | none => intro _; rfl
    | some idx => intro hc; exact absurd rfl hc
  · unfold cleanopsFixDuplicates
    cases h : t.names.findIdx? (fun n => n == key) with
    | none => intro _; rfl
    | some idx => intro hc; exact absurd rfl hc
  · exact fixOutliersGo_err_unchanged s t

/-- C3 amended witness: evaluated at a concrete table, a missing column
name and a bad strategy. -/
theorem invalid_arg_no_mutation_amended_witness :
    (sortRowsRun "zzz" c3Table).1 = c3Table ∧
    (cleanopsFixDuplicates "zzz" c3Table).1 = c3Table ∧
    (cleanopsFixOutliers "bogus" c3Table).1 = c3Table := by
  have h := invalid_arg_no_mutation_amended c3Table "zzz" "zzz" "bogus"
  exact ⟨h.1 (by decide), h.2.1 (by decide), h.2.2 (by decide)⟩

/-- C4 counterexample: `"bogus"` is neither `"mean"` nor `"median"`, yet
`fix_missing("bogus")` on a table with no missing cell returns without
signalling, and `"bogus"` is not `"clip"`, yet `fix_outliers("bogus")` on a
table with no numeric column returns without signalling — the strategy
checks sit inside the per-column loops and are unreachable on such
tables. -/
theorem strategy_validation_cex :
    ("bogus" ≠ "mean" ∧ "bogus" ≠ "median" ∧
      (cleanopsFixMissing "bogus" c4TextTable).2.2 = none) ∧
    ("bogus" ≠ "clip" ∧ (cleanopsFixOutliers "bogus" c4TextTable).2.2 = none) := by
  refine ⟨⟨?_, ?_, ?_⟩, ?_, ?_⟩ <;> decide

/-- C4 amended: with a strategy that is neither `"mean"` nor `"median"`,
`fix_missing` signals the invalid-argument error exactly when some numeric
column has a positive missing count; with a strategy that is not `"clip"`,
`fix_outliers` signals exactly when the table has at least one numeric
column.  Otherwise the invalid strategy goes unnoticed. -/
theorem strategy_validation_conditions (t : Table) (s : String) :
    (s ≠ "mean" → s ≠ "median" →
      ((cleanopsFixMissing s t).2.2 ≠ none ↔
        ∃ c ∈ t, c.isNumeric = true ∧ 0 < c.missingCount)) ∧
    (s ≠ "clip" →
      ((cleanopsFixOutliers s t).2.2 ≠ none ↔ ∃ c ∈ t, c.isNumeric = true)) := by
  exact ⟨fun h1 h2 => fixMissingGo_err_iff s h1 h2 t,
    fun h => fixOutliersGo_err_iff s h t⟩

/-- C4 amended witness: on a numeric column with a missing cell both
operations do signal the invalid strategy. -/
theorem strategy_validation_conditions_witness :
    (cleanopsFixMissing "bogus" c4NumTable).2.2 ≠ none ∧
    (cleanopsFixOutliers "bogus" c4NumTable).2.2 ≠ none := by
  have h := strategy_validation_conditions c4NumTable "bogus"
  exact ⟨(h.1 (by decide) (by decide)).mpr (by decide), (h.2 (by decide)).mpr (by decide)⟩

lemma names_ne_nil_of_ne_nil {t : Table} (h : t ≠ []) : t.names ≠ [] := by
  cases t with
  | nil => exact absurd rfl h
  | cons c cs => simp [Table.names]

lemma rows_ofRows_dedup {α : Type} [DecidableEq α] (f : Row → α) (t : Table)
    (hne : t ≠ []) :
    (Table.ofRows t.names (dedupKeepFirst f t.rows)).rows = dedupKeepFirst f t.rows := by
  apply Table.rows_ofRows _ _ (names_ne_nil_of_ne_nil hne)
  intro r hr
  have hmem : r ∈ t.rows :=
    (dedupKeepFirstAux_sublist f [] t.rows).mem hr
  rw [t.length_mem_rows hmem]
  simp [Table.names]

/-- C5: `fix_duplicates` with the key omitted is the whole-row variant and
with a key the key-based variant; in both cases the surviving rows are
exactly the first occurrences — every row that duplicates an earlier row
under the active key definition is removed (`firstOccFilter` is the
independent spec-side characterization) — the column names are preserved,
and exactly one fix-log entry is appended, reporting the removed count,
even when that count is zero. -/
theorem fixDuplicates_spec (t : Table) (hwf : t.WellFormed) :
    ((fixDuplicates none t).2.2 = none ∧
     (fixDuplicates none t).2.1 =
       [toString (t.nrows - (fixDuplicates none t).1.nrows) ++ " duplicate rows removed."] ∧
     (fixDuplicates none t).1.rows = firstOccFilter id t.rows ∧
     (fixDuplicates none t).1.names = t.names) ∧
    (∀ column idx, t.names.findIdx? (fun n => n == column) = some idx →
      (fixDuplicates (some column) t).2.2 = none ∧
      (fixDuplicates (some column) t).2.1 =
        ["Removed " ++ toString (t.nrows - (fixDuplicates (some column) t).1.nrows) ++
          " duplicate rows based on column " ++ column] ∧
      (fixDuplicates (some column) t).1.rows = firstOccFilter (keyAt idx) t.rows ∧
      (fixDuplicates (some column) t).1.names = t.names) := by
  constructor
  · refine ⟨rfl, rfl, ?_, Table.names_ofRows _ _⟩
    by_cases hne : t = []
    · subst hne
      show (Table.ofRows [] (dedupKeepFirst id [])).rows = firstOccFilter id []
      simp [Table.ofRows_nil, Table.rows, Table.nrows, firstOccFilter, dedupKeepFirst,
        dedupKeepFirstAux]
    · show (Table.ofRows t.names (dedupKeepFirst id t.rows)).rows = firstOccFilter id t.rows
      rw [rows_ofRows_dedup id t hne]
      exact dedupKeepFirst_eq_firstOccFilter id t.rows
  · intro column idx hidx
    have hfd : fixDuplicates (some column) t =
        (Table.ofRows t.names (dedupKeepFirst (keyAt idx) t.rows),
         ["Removed " ++
            toString (t.nrows -
              (Table.ofRows t.names (dedupKeepFirst (keyAt idx) t.rows)).nrows) ++
          " duplicate rows based on column " ++ column], none) := by
      show cleanopsFixDuplicates column t = _
      unfold cleanopsFixDuplicates
      rw [hidx]
    have hne : t ≠ [] := by
      intro h
      subst h
      simp [Table.names] at hidx
    rw [hfd]
    refine ⟨rfl, rfl, ?_, Table.names_ofRows _ _⟩
    show (Table.ofRows t.names (dedupKeepFirst (keyAt idx) t.rows)).rows =
      firstOccFilter (keyAt idx) t.rows
    rw [rows_ofRows_dedup (keyAt idx) t hne]
    exact dedupKeepFirst_eq_firstOccFilter (keyAt idx) t.rows

/-- C5 witness: whole-row deduplication removes nothing from the distinct
rows of the concrete table, while deduplication keyed on `k` returns
normally and keeps exactly the first row of each `k`-group. -/
theorem fixDuplicates_spec_witness :
    (fixDuplicates none c5Table).2.1 = ["0 duplicate rows removed."] ∧
    (fixDuplicates (some "k") c5Table).2.2 = none ∧
    (fixDuplicates (some "k") c5Table).1.rows = firstOccFilter (keyAt 0) c5Table.rows := by
  have h := fixDuplicates_spec c5Table (by decide)
  have hkey := h.2 "k" 0 (by decide)
  refine ⟨?_, hkey.1, hkey.2.2.1⟩
  have h1 := h.1.2.1
  rw [h1]
  decide

/-- C6 counterexample: in the concrete table whose only column is literally
named `"Dataset"` (one missing cell, one duplicate row), the duplicate
suggestion is *assigned* to the `"Dataset"` key and overwrites the missing
suggestion emitted for that column, so the column with missing count 1 > 0
ends up with no missing-value entry in the result — `diagnose` returns
`[("Dataset", ["1 duplicate rows"])]`. -/
theorem diagnose_dataset_clobber_cex :
    0 < (Column.mk "Dataset" [Cell.null, Cell.num 1, Cell.num 1]).missingCount ∧
    diagnose cdsTable = [("Dataset", [dupMsg 1])] ∧
    missingMsg 1 ∉ alGet (diagnose cdsTable) "Dataset" := by
  refine ⟨?_, ?_, ?_⟩ <;> decide

/-- C6 amended: `diagnose` keys suggestions by subject — every column with
missing count > 0 gets a missing-value entry under its name *provided* it
is not itself named `"Dataset"` while the table has duplicates (the
duplicate entry is assigned, not appended, and then clobbers it); a
positive duplicate count contributes an entry under `"Dataset"`; outlier
suggestions are appended to (not replacing) the column's existing entry, so
a column with both missing values and outliers carries both suggestions. -/
theorem diagnose_keys_amended (t : Table) (hnd : t.names.Nodup) :
    (∀ c ∈ t, 0 < c.missingCount → (c.name ≠ "Dataset" ∨ detectDuplicates t = 0) →
      missingMsg c.missingCount ∈ alGet (diagnose t) c.name) ∧
    (0 < detectDuplicates t →
      dupMsg (detectDuplicates t) ∈ alGet (diagnose t) "Dataset") ∧
    (∀ c ∈ t, c.isNumeric = true → 0 < c.outlierCount →
      outlierMsg c.outlierCount ∈ alGet (diagnose t) c.name) := by
  have hkeysMissing : (detectMissing t).map Prod.fst = t.names := by
    unfold detectMissing Table.names
    rw [List.map_map]
    rfl
  have hndM : ((detectMissing t).map Prod.fst).Nodup := by rw [hkeysMissing]; exact hnd
  have hkeysOut : (detectOutliers t).map Prod.fst =
      (t.filter (fun c => c.isNumeric)).map (fun c => c.name) := by
    unfold detectOutliers
    rw [List.map_map]
    rfl
  have hndO : ((detectOutliers t).map Prod.fst).Nodup := by
    rw [hkeysOut]
    have hsub : ((t.filter (fun c => c.isNumeric)).map (fun c => c.name)).Sublist
        (t.map (fun c => c.name)) :=
      (List.filter_sublist t).map _
    exact (hsub.nodup hnd)
  refine ⟨?_, ?_, ?_⟩
  · intro c hc hpos hcase
    unfold diagnose
    have hm1 : alGet ((detectMissing t).foldl diagMissingStep []) c.name =
        [missingMsg c.missingCount] :=
      foldl_diagMissingStep_mem _ _ _ _ hndM
        (by
          unfold detectMissing
          exact List.mem_map_of_mem _ hc) hpos
    set m1 := (detectMissing t).foldl diagMissingStep [] with hm1def
    have hm2 : alGet (if 0 < detectDuplicates t then
        alSet m1 "Dataset" [dupMsg (detectDuplicates t)] else m1) c.name =
        [missingMsg c.missingCount] := by
      by_cases hdup : 0 < detectDuplicates t
      · rw [if_pos hdup]
        rcases hcase with hne | hzero
        · rw [alGet_alSet_ne _ _ _ _ hne]
          exact hm1
        · omega
      · rw [if_neg hdup]
        exact hm1
    obtain ⟨ext, hext⟩ := foldl_diagOutlierStep_mono (detectOutliers t)
      (if 0 < detectDuplicates t then
        alSet m1 "Dataset" [dupMsg (detectDuplicates t)] else m1) c.name
    rw [hext, hm2]
    exact List.mem_append_left _ (List.mem_singleton.mpr rfl)
  · intro hdup
    unfold diagnose
    set m1 := (detectMissing t).foldl diagMissingStep [] with hm1def
    have hm2 : alGet (if 0 < detectDuplicates t then
        alSet m1 "Dataset" [dupMsg (detectDuplicates t)] else m1) "Dataset" =
        [dupMsg (detectDuplicates t)] := by
      rw [if_pos hdup, alGet_alSet_same]
    obtain ⟨ext, hext⟩ := foldl_diagOutlierStep_mono (detectOutliers t)
      (if 0 < detectDuplicates t then
        alSet m1 "Dataset" [dupMsg (detectDuplicates t)] else m1) "Dataset"
    rw [hext, hm2]
    exact List.mem_append_left _ (List.mem_singleton.mpr rfl)
  · intro c hc hnum hpos
    unfold diagnose
    apply foldl_diagOutlierStep_mem _ _ _ _ hndO
      (by
        unfold detectOutliers
        exact List.mem_map_of_mem _ (List.mem_filter.mpr ⟨hc, hnum⟩)) hpos

/-- C6 amended witness: the concrete `age` column has both a missing cell
and an IQR outlier, and both suggestions are present in its entry. -/
theorem diagnose_keys_amended_witness :
    missingMsg c6wCol.missingCount ∈ alGet (diagnose c6wTable) "age" ∧
    outlierMsg c6wCol.outlierCount ∈ alGet (diagnose c6wTable) "age" := by
  have h := diagnose_keys_amended c6wTable (by decide)
  exact ⟨h.1 c6wCol (by decide) (by decide) (Or.inl (by decide)),
    h.2.2 c6wCol (by decide) (by decide) (by decide)⟩

/-- C7: `health_score` returns exactly `max(0, 100 - total)` where `total`
sums all missing counts, the duplicate count and all z-score outlier counts
of one report snapshot; a defect-free table scores exactly 100, any table
with at least 100 total defects scores exactly 0, and the score is never
negative. -/
theorem healthScore_spec (t : Table) :
    healthScore t = max 0 (100 - (totalDefects t : Int)) ∧
    (totalDefects t = 0 → healthScore t = 100) ∧
    (100 ≤ totalDefects t → healthScore t = 0) ∧
    0 ≤ healthScore t := by
  refine ⟨rfl, ?_, ?_, ?_⟩
  · intro h
    unfold healthScore
    rw [h]
    rfl
  · intro h
    unfold healthScore
    have : (100 : Int) - (totalDefects t : Int) ≤ 0 := by
      have : (100 : Int) ≤ (totalDefects t : Int) := by exact_mod_cast h
      omega
    omega
  · unfold healthScore
    exact le_max_left 0 _

set_option maxRecDepth 100000 in
/-- C7 witness: the defect-free table scores 100; the table with 150
missing cells scores 0. -/
theorem healthScore_spec_witness :
    healthScore c7CleanTable = 100 ∧ healthScore c7BigTable = 0 :=
  ⟨(healthScore_spec c7CleanTable).2.1 (by decide),
   (healthScore_spec c7BigTable).2.2.1 (by decide)⟩

/-- C8: for a numeric column whose two quartiles coincide (`IQR = 0`), the
clipping bounds collapse to the single quartile value and `detect_outliers`
counts exactly the present values different from it — the zero-variance
case is not special-cased away. -/
theorem zero_iqr_outliers_spec (c : Column) (q : ℚ)
    (h1 : c.quantile (1/4) = some q) (h3 : c.quantile (3/4) = some q) :
    c.iqrBounds = some (q, q) ∧
    c.outlierCount = c.presentValues.countP (fun v => !decide (v = q)) := by
  have hb : c.iqrBounds = some (q, q) := by
    unfold Column.iqrBounds
    rw [h1, h3]
    norm_num
  refine ⟨hb, ?_⟩
  unfold Column.outlierCount
  rw [hb]
  apply List.countP_congr
  intro v _
  rcases lt_trichotomy v q with h | h | h
  · simp [h, ne_of_lt h, not_lt.mpr (le_of_lt h)]
  · simp [h]
  · simp [h, (ne_of_lt h).symm, not_lt.mpr (le_of_lt h)]

/-- C8 witness: on the concrete column `[5, 5, 5, 5, 7]` both quartiles
are 5, and the single deviating value 7 is counted. -/
theorem zero_iqr_outliers_spec_witness :
    c8Col.iqrBounds = some (5, 5) ∧
    c8Col.outlierCount = c8Col.presentValues.countP (fun v => !decide (v = 5)) :=
  zero_iqr_outliers_spec c8Col 5 (by decide) (by decide)

/-- C9: whole-row `fix_duplicates` is idempotent — running it a second time
returns the same table and appends the fix-log entry reporting zero rows
removed. -/
theorem fixDuplicates_idempotent (t : Table) (hwf : t.WellFormed) :
    dataPreprocessorFixDuplicates (dataPreprocessorFixDuplicates t).1 =
      ((dataPreprocessorFixDuplicates t).1, "0 duplicate rows removed.") := by
  by_cases hne : t = []
  · subst hne
    decide
  · have hrows1 : (dataPreprocessorFixDuplicates t).1.rows = dedupKeepFirst id t.rows := by
      show (Table.ofRows t.names (dedupKeepFirst id t.rows)).rows = _
      exact rows_ofRows_dedup id t hne
    have hwf1 : (dataPreprocessorFixDuplicates t).1.WellFormed :=
      Table.wellFormed_ofRows t.names _
    have hdd : dedupKeepFirst id (dataPreprocessorFixDuplicates t).1.rows =
        (dataPreprocessorFixDuplicates t).1.rows := by
      rw [hrows1]
      exact dedupKeepFirst_idem id t.rows
    show (Table.ofRows (dataPreprocessorFixDuplicates t).1.names
        (dedupKeepFirst id (dataPreprocessorFixDuplicates t).1.rows),
      toString ((dataPreprocessorFixDuplicates t).1.nrows -
        (Table.ofRows (dataPreprocessorFixDuplicates t).1.names
          (dedupKeepFirst id (dataPreprocessorFixDuplicates t).1.rows)).nrows) ++
        " duplicate rows removed.") = _
    rw [hdd, Table.ofRows_rows _ hwf1, Nat.sub_self]
    rfl

/-- C9 witness: evaluated at the concrete table with one duplicated row. -/
theorem fixDuplicates_idempotent_witness :
    dataPreprocessorFixDuplicates (dataPreprocessorFixDuplicates c9Table).1 =
      ((dataPreprocessorFixDuplicates c9Table).1, "0 duplicate rows removed.") :=
  fixDuplicates_idempotent c9Table (by decide)

/-- C10: for an existing column, `sort_rows` returns normally and reorders
the rows into a permutation of the original rows whose key cells are
ascending under the cell order, in which a null key cell is never followed
by a present one (nulls are placed after all present values). -/
theorem sortRows_spec (t : Table) (hwf : t.WellFormed) (column : String) (idx : Nat)
    (hidx : t.names.findIdx? (fun n => n == column) = some idx) :
    (sortRowsRun column t).2 = none ∧
    ((sortRowsRun column t).1).rows.Perm t.rows ∧
    (((sortRowsRun column t).1).rows.map (keyAt idx)).Pairwise
      (fun a b => cellLE a b = true) ∧
    (((sortRowsRun column t).1).rows.map (keyAt idx)).Pairwise
      (fun a b => a = Cell.null → b = Cell.null) := by
  have hne : t ≠ [] := by
    intro h
    subst h
    simp [Table.names] at hidx
  have hres : sortRowsRun column t =
      (Table.ofRows t.names (t.rows.insertionSort (rowLe idx)), none) := by
    unfold sortRowsRun
    rw [hidx]
  have hsorted := List.sorted_insertionSort (rowLe idx) t.rows
  have hperm := List.perm_insertionSort (rowLe idx) t.rows
  have hrows : (Table.ofRows t.names (t.rows.insertionSort (rowLe idx))).rows =
      t.rows.insertionSort (rowLe idx) := by
    apply Table.rows_ofRows _ _ (names_ne_nil_of_ne_nil hne)
    intro r hr
    have hmem : r ∈ t.rows := hperm.mem_iff.mp hr
    rw [t.length_mem_rows hmem]
    simp [Table.names]
  rw [hres]
  refine ⟨rfl, ?_, ?_, ?_⟩
  · rw [hrows]
    exact hperm
  · rw [hrows, List.pairwise_map]
    exact hsorted
  · rw [hrows, List.pairwise_map]
    refine List.Pairwise.imp ?_ hsorted
    intro a b hab hnull
    have hab' : cellLE (keyAt idx a) (keyAt idx b) = true := hab
    rw [hnull] at hab'
    exact cellLE_null_left hab'

/-- C10 witness: evaluated at the concrete out-of-order column with a
null. -/
theorem sortRows_spec_witness :
    (sortRowsRun "age" c10Table).2 = none ∧
    ((sortRowsRun "age" c10Table).1).rows.Perm c10Table.rows := by
  have h := sortRows_spec c10Table (by decide) "age" 0 (by decide)
  exact ⟨h.1, h.2.1⟩
